import Mathlib

/-!
Shallow embedding of the synchronization engine of `src/fileshare/main.py`
(a Google-Drive folder/file synchronizer).  Remote times (ISO strings in the
source, compared after `datetime.fromisoformat`) are modelled as naturals;
the Python sentinel `""` stored for folder records (never parsed, because
both reconciliation passes skip folders) is modelled as `0`.  The local
filesystem is modelled as an association list from path to file content;
directories carry no content, so `os.makedirs` is a no-op of the model.
The SHA1 hasher is an explicit function parameter `hashFn`: the engine only
ever uses it as a deterministic function of the file's bytes.
-/

set_option autoImplicit false

/-- One persisted sync record, mirroring the dict written by
`download_and_track` in `src/fileshare/main.py`.  `localHashAtSync = none`
models Python `None` (hash of a missing file); folders store `some ""`
mirroring the Python empty string. -/
structure SyncRecord where
  name : String
  isFolder : Bool
  localPath : String
  lastSyncedTime : Nat
  remoteModifiedTime : Nat
  localHashAtSync : Option String
  driveRootId : String
  driveRelativePath : String
  deriving DecidableEq, Repr

/-- The in-memory/persisted sync-status mapping (`self.sync_status`, a JSON
dict keyed by remote file id). -/
abbrev Store := List (String × SyncRecord)

/-- The local filesystem: a mapping from file path to file content. -/
abbrev LocalFS := List (String × String)

/-- Dictionary lookup (`self.sync_status.get(fid)` / `fid in self.sync_status`). -/
def storeGet (st : Store) (k : String) : Option SyncRecord :=
  match st with
  | [] => none
  | (f, r) :: rest => if f = k then some r else storeGet rest k

/-- Dictionary assignment `self.sync_status[fid] = rec`: replaces the entry in
place when the key exists, otherwise appends. -/
def storeSet (st : Store) (k : String) (v : SyncRecord) : Store :=
  match st with
  | [] => [(k, v)]
  | (f, r) :: rest => if f = k then (f, v) :: rest else (f, r) :: storeSet rest k v

/-- Keys of the store, in insertion order. -/
def storeKeys (st : Store) : List String := st.map Prod.fst

/-- File lookup: `some content` when a regular file exists at the path. -/
def fsGet (fs : LocalFS) (p : String) : Option String :=
  match fs with
  | [] => none
  | (q, c) :: rest => if q = p then some c else fsGet rest p

/-- Writing a file (`open(path, "wb")` followed by a complete write). -/
def fsSet (fs : LocalFS) (p : String) (c : String) : LocalFS :=
  match fs with
  | [] => [(p, c)]
  | (q, d) :: rest => if q = p then (q, c) :: rest else (q, d) :: fsSet rest p c

/-- Deleting a single file, `os.remove(path)`. -/
def fsRemove (fs : LocalFS) (p : String) : LocalFS :=
  fs.filter (fun e => decide (e.1 ≠ p))

/-- True when the path names the given file or a path below the given
directory; used to model recursive directory deletion. -/
def underPath (root q : String) : Bool :=
  q = root || List.isPrefixOf (root ++ "/").data q.data

/-- Recursive directory deletion, `shutil.rmtree(root)`: every file at or
below `root` disappears. -/
def rmtree (fs : LocalFS) (root : String) : LocalFS :=
  fs.filter (fun e => !underPath root e.1)

/-- Existence check `os.path.exists` for a file path. -/
def fsFileExists (fs : LocalFS) (p : String) : Bool :=
  (fsGet fs p).isSome

/-- Existence check `os.path.exists` for a directory: in the files-only model
a directory exists when some file lives at or below it. -/
def fsDirExists (fs : LocalFS) (p : String) : Bool :=
  fs.any (fun e => underPath p e.1)

/-- Constant `SYNC_DIR = "synced_files"`. -/
def syncDir : String := "synced_files"

/-- Path joining `os.path.join(a, b)` (POSIX separator). -/
def pathJoin (a b : String) : String := a ++ "/" ++ b

/-- Hash of a local file, `get_local_file_hash`: `none` when the file is
missing (`FileNotFoundError` branch), otherwise the digest of its content. -/
def get_local_file_hash (hashFn : String → String) (fs : LocalFS) (p : String) :
    Option String :=
  (fsGet fs p).map hashFn

/-- Outcome of one `MediaIoBaseDownload` content download.  `ok content`:
the whole content is written.  `err (some c)`: `open(path, "wb")` succeeded
but a later chunk raised, leaving the truncated/partial bytes `c` on disk.
`err none`: the open itself raised, leaving the filesystem untouched. -/
inductive DownloadOutcome where
  | ok (content : String)
  | err (leftover : Option String)
  deriving DecidableEq, Repr

/-- The function `download_file` (src lines 54-73).  It catches its own
exceptions: the boolean result (Python: the path vs `None`) reports success,
and on failure the file may have been truncated or partially overwritten. -/
def download_file (fs : LocalFS) (localPath : String) (d : DownloadOutcome) :
    LocalFS × Bool :=
  match d with
  | .ok c => (fsSet fs localPath c, true)
  | .err (some c) => (fsSet fs localPath c, false)
  | .err none => (fs, false)

/-- Per-file behaviour of the remote drive as seen through
`service.files().get(...)` and `get_media`: `getMeta` is the metadata fetch
(`none` models a raised exception), `download` the content download. -/
structure Remote where
  getMeta : String → Option Nat
  download : String → DownloadOutcome

/-- Metadata of one remote item as returned by `files().list` in
`list_files_in_folder` (id, name, folder flag from the mimeType, and the
listed modification time). -/
structure RemoteFile where
  id : String
  name : String
  isFolder : Bool
  modifiedTime : Nat
  deriving DecidableEq, Repr

/-- The remote drive hierarchy below one item, together with the outcome of
listing each folder: `ok = false` means `files().list` raises for that folder
(the walker catches it and abandons only that subtree). -/
inductive RTree where
  | file (id name : String) (mtime : Nat)
  | folder (id name : String) (mtime : Nat) (ok : Bool) (children : List RTree)

/-- Remote id of a node. -/
def RTree.idOf : RTree → String
  | .file i _ _ => i
  | .folder i _ _ _ _ => i

/-- Display name of a node. -/
def RTree.nameOf : RTree → String
  | .file _ n _ => n
  | .folder _ n _ _ _ => n

/-- Metadata dict of a node, as `list_files_in_folder` reports it. -/
def RTree.metaOf : RTree → RemoteFile
  | .file i n m => ⟨i, n, false, m⟩
  | .folder i n m _ _ => ⟨i, n, true, m⟩

/-- The function `list_files_in_folder` (src lines 45-52): a single
`files().list` page with `pageSize=100` and no page token, so at most the
first 100 children are returned; `none` models a raised exception.  Listing
children of a plain file returns the empty page. -/
def list_files_in_folder : RTree → Option (List RTree)
  | .file _ _ _ => some []
  | .folder _ _ _ ok cs => if ok then some (cs.take 100) else none

/-- Auxiliary bound used for the walker's termination. -/
theorem sizeOf_take_le (l : List RTree) (n : Nat) : sizeOf (l.take n) ≤ sizeOf l := by
  induction l generalizing n with
  | nil => cases n <;> simp
  | cons c rest ih =>
    cases n with
    | zero => simp; omega
    | succ m =>
      have := ih m
      simp [List.take]
      omega

/-- One item yielded by the walker: metadata, drive-relative path, full
local path. -/
abbrev WalkItem := RemoteFile × String × String

/-- The `for f in files` loop body of `_recursively_get_folder_content`
(src lines 142-161), with the recursive `yield from` into a child folder
inlined (listing the child folder applies its `ok` flag and the
`pageSize=100` truncation exactly as `list_files_in_folder` does). -/
def walkLoop : List RTree → String → List WalkItem
  | [], _ => []
  | RTree.file i n m :: rest, pre =>
    let rel := pathJoin pre n
    (⟨i, n, false, m⟩, rel, pathJoin syncDir rel) :: walkLoop rest pre
  | RTree.folder i n m ok cs :: rest, pre =>
    let rel := pathJoin pre n
    (⟨i, n, true, m⟩, rel, pathJoin syncDir rel) ::
      ((if ok then walkLoop (cs.take 100) rel else []) ++ walkLoop rest pre)
termination_by l _ => sizeOf l
decreasing_by
  · simp
  · have h1 := sizeOf_take_le cs 100
    simp
    omega
  · simp

/-- The generator `_recursively_get_folder_content` (src lines 131-161):
lists the folder (catching a listing failure, which yields nothing) and
walks the returned page depth-first. -/
def recursively_get_folder_content (t : RTree) (pre : String) : List WalkItem :=
  match list_files_in_folder t with
  | none => []
  | some files => walkLoop files pre

/-- Record fields and walk data for one processed item, as assembled by
`download_and_track` (src lines 449-488).  The triple is (new store, new
filesystem, success flag); on a metadata or download failure the store is
untouched and `false` is returned. -/
def download_and_track (hashFn : String → String) (rm : Remote) (now : Nat)
    (st : Store) (fs : LocalFS) (fileId fname : String) (isFolder : Bool)
    (driveRelativePath fullLocalPath syncRootId : String) :
    Store × LocalFS × Bool :=
  if isFolder then
    -- only creates the local directory (no content fields) and records it
    (storeSet st fileId
      { name := fname, isFolder := true, localPath := fullLocalPath,
        lastSyncedTime := now, remoteModifiedTime := 0,
        localHashAtSync := some "", driveRootId := syncRootId,
        driveRelativePath := driveRelativePath }, fs, true)
  else
    match rm.getMeta fileId with
    | none => (st, fs, false)
    | some remoteModifiedTime =>
      let dl := download_file fs fullLocalPath (rm.download fileId)
      if dl.2 = false then (st, dl.1, false)
      else
        let localHash := get_local_file_hash hashFn dl.1 fullLocalPath
        (storeSet st fileId
          { name := fname, isFolder := false, localPath := fullLocalPath,
            lastSyncedTime := now, remoteModifiedTime := remoteModifiedTime,
            localHashAtSync := localHash, driveRootId := syncRootId,
            driveRelativePath := driveRelativePath }, dl.1, true)

/-- Loop body of `_start_recursive_sync`'s item iteration: one
`download_and_track` call for one walker item (its failure flag is ignored,
matching the per-item catch-and-continue of the source loop). -/
def trackStep (hashFn : String → String) (rm : Remote) (now : Nat)
    (rootId : String) (acc : Store × LocalFS) (item : WalkItem) :
    Store × LocalFS :=
  let step := download_and_track hashFn rm now acc.1 acc.2 item.1.id
    item.1.name item.1.isFolder item.2.1 item.2.2 rootId
  (step.1, step.2.1)

/-- Worker `_start_recursive_sync` (src lines 490-538): tracks the selected
folder itself with `sync_root_id := drive_folder_id`, then processes every
walker item with `download_and_track`, continuing past per-item failures. -/
def start_recursive_sync (hashFn : String → String) (rm : Remote) (now : Nat)
    (st : Store) (fs : LocalFS) (t : RTree) (folderName : String) :
    Store × LocalFS :=
  let rootId := t.idOf
  let step1 := download_and_track hashFn rm now st fs rootId folderName true
    folderName (pathJoin syncDir folderName) rootId
  (recursively_get_folder_content t folderName).foldl
    (trackStep hashFn rm now rootId) (step1.1, step1.2.1)

/-- The single-file branch of `toggle_sync` (src lines 609-619): the relative
path is just the file name and, notably, `sync_root_id` is the id of the
folder currently open in the browser, not the file's own id. -/
def toggle_sync_track_file (hashFn : String → String) (rm : Remote) (now : Nat)
    (st : Store) (fs : LocalFS) (fileId fname currentFolderId : String) :
    Store × LocalFS × Bool :=
  download_and_track hashFn rm now st fs fileId fname false fname
    (pathJoin syncDir fname) currentFolderId

/-- The `items_to_unsync` list of `_recursively_unsync`: every id whose
record has `drive_root_id == drive_id`, or which is `drive_id` itself. -/
def unsyncItems (st : Store) (driveId : String) : List String :=
  (st.filter (fun e => e.2.driveRootId = driveId || e.1 = driveId)).map Prod.fst

/-- The function `_recursively_unsync` (src lines 541-575): collects every id
whose record has `drive_root_id == drive_id` or which is `drive_id` itself,
deletes the local replica of the record matching `drive_id` (recursively for
a folder), removes all collected records, and saves (the returned store is
the persisted mapping). -/
def recursively_unsync (st : Store) (fs : LocalFS) (driveId : String) :
    Store × LocalFS :=
  let itemsToUnsync := unsyncItems st driveId
  let fs' := match storeGet st driveId with
    | none => fs
    | some r =>
      if r.isFolder then
        if fsDirExists fs r.localPath then rmtree fs r.localPath else fs
      else
        if fsFileExists fs r.localPath then fsRemove fs r.localPath else fs
  let st' := st.filter (fun e => decide (e.1 ∉ itemsToUnsync))
  (st', fs')

/-- Remote-content calls made while processing one item: used to state that a
branch uploads or downloads nothing. -/
inductive SyncAction where
  | uploadCall (fileId : String)
  | downloadCall (fileId localPath : String)
  deriving DecidableEq, Repr

/-- Transient per-item outcome of one push-pass iteration, shown in the GUI
(`update_treeview_sync_status`); the CONFLICT state lives only here, never in
the persisted record. -/
inductive PushStatus where
  | folderSkipped
  | missingSkipped
  | unchangedSkipped
  | conflictDetected
  | uploaded
  | uploadError
  deriving DecidableEq, Repr

/-- Environment of one push-pass iteration: the pre-upload metadata fetch
(`modifiedTime, name`; `none` = raised), whether `update_file_content`
succeeds, the post-upload metadata fetch, and the wall clock. -/
structure PushEnv where
  meta : Option (Nat × String)
  uploadOk : Bool
  metaAfter : Option Nat
  now : Nat

/-- Loop body of `check_and_sync_local_changes` (src lines 628-674) for one
record: skip folders, skip a missing local file, skip an unchanged hash;
otherwise flag a conflict when the remote is strictly newer, else upload and
refresh the record from the post-upload metadata.  A raised exception
anywhere in the `try` leaves the record unchanged. -/
def checkLocalItem (hashFn : String → String) (env : PushEnv) (fileId : String)
    (r : SyncRecord) (fs : LocalFS) : SyncRecord × PushStatus × List SyncAction :=
  if r.isFolder then (r, .folderSkipped, [])
  else
    match fsGet fs r.localPath with
    | none => (r, .missingSkipped, [])
    | some content =>
      let currentLocalHash := hashFn content
      if some currentLocalHash ≠ r.localHashAtSync then
        match env.meta with
        | none => (r, .uploadError, [])
        | some (remoteTimeCurrent, _rname) =>
          if remoteTimeCurrent > r.remoteModifiedTime then
            (r, .conflictDetected, [])
          else
            -- update_file_content is invoked here
            if env.uploadOk then
              match env.metaAfter with
              | none => (r, .uploadError, [.uploadCall fileId])
              | some timeAfterUpload =>
                ({ r with lastSyncedTime := env.now,
                          localHashAtSync := some currentLocalHash,
                          remoteModifiedTime := timeAfterUpload },
                 .uploaded, [.uploadCall fileId])
            else (r, .uploadError, [.uploadCall fileId])
      else (r, .unchangedSkipped, [])

/-- The push pass `check_and_sync_local_changes` (src lines 623-678): each
record is decided from its own stored state and the current filesystem, and
the resulting mapping is saved. -/
def check_and_sync_local_changes (hashFn : String → String)
    (env : String → PushEnv) (fs : LocalFS) :
    Store → Store × List (String × PushStatus)
  | [] => ([], [])
  | (fid, r) :: rest =>
    let step := checkLocalItem hashFn (env fid) fid r fs
    let tail := check_and_sync_local_changes hashFn env fs rest
    ((fid, step.1) :: tail.1, (fid, step.2.1) :: tail.2)

/-- Transient per-item outcome of one pull-pass iteration. -/
inductive PullStatus where
  | folderSkipped
  | upToDate
  | downloaded
  | conflictDetected
  | errorCaught
  deriving DecidableEq, Repr

/-- Environment of one pull-pass iteration: the metadata fetch
(`modifiedTime, name`; `none` = raised), the content-download outcome, and
the wall clock. -/
structure PullEnv where
  meta : Option (Nat × String)
  download : DownloadOutcome
  now : Nat

/-- Loop body of `check_and_sync_remote_changes` (src lines 686-736) for one
record: skip folders; when the remote time is strictly newer, download over
the local file if its hash still matches `local_hash_at_sync` (note that the
result of `download_file` is ignored: the record is refreshed even when the
download failed), otherwise flag a conflict.  Only a raised exception leaves
the item untouched. -/
def checkRemoteItem (hashFn : String → String) (env : PullEnv)
    (r : SyncRecord) (fs : LocalFS) :
    SyncRecord × LocalFS × PullStatus × List SyncAction :=
  if r.isFolder then (r, fs, .folderSkipped, [])
  else
    match env.meta with
    | none => (r, fs, .errorCaught, [])
    | some (remoteTime, remoteName) =>
      if remoteTime > r.remoteModifiedTime then
        let currentLocalHash := get_local_file_hash hashFn fs r.localPath
        if currentLocalHash = r.localHashAtSync then
          let dl := download_file fs r.localPath env.download
          let newLocalHash := get_local_file_hash hashFn dl.1 r.localPath
          ({ r with name := remoteName, localPath := r.localPath,
                    lastSyncedTime := env.now,
                    remoteModifiedTime := remoteTime,
                    localHashAtSync := newLocalHash },
           dl.1, .downloaded, [.downloadCall r.name r.localPath])
        else (r, fs, .conflictDetected, [])
      else (r, fs, .upToDate, [])

/-- The pull pass `check_and_sync_remote_changes` (src lines 681-740): each
record is decided from its own stored state, the filesystem is threaded
through the downloads, and the resulting mapping is saved. -/
def check_and_sync_remote_changes (hashFn : String → String)
    (env : String → PullEnv) :
    Store → LocalFS → Store × LocalFS × List (String × PullStatus)
  | [], fs => ([], fs, [])
  | (fid, r) :: rest, fs =>
    let step := checkRemoteItem hashFn (env fid) r fs
    let tail := check_and_sync_remote_changes hashFn env rest step.2.1
    ((fid, step.1) :: tail.1, tail.2.1, (fid, step.2.2.1) :: tail.2.2)

/-- Outcome reported by the KEEP_REMOTE conflict-resolution worker:
`resolvedDownloaded` is the success dialog plus the "STAŽENO" status,
`resolutionFailed` the error dialog plus the "STAŽENÍ SELHALO" status. -/
inductive ResolveStatus where
  | resolvedDownloaded
  | resolutionFailed
  deriving DecidableEq, Repr

/-- The KEEP_REMOTE worker `_resolve_conflict_download` (src lines 410-437):
fetches metadata, downloads (ignoring `download_file`'s result), rehashes the
local file and refreshes the record.  Only a raised exception (metadata fetch
failing, or the record being absent when `.update` is called) reaches the
failure branch. -/
def resolve_conflict_download (hashFn : String → String) (env : PullEnv)
    (st : Store) (fs : LocalFS) (fileId localFilepath : String) :
    Store × LocalFS × ResolveStatus :=
  match env.meta with
  | none => (st, fs, .resolutionFailed)
  | some (remoteModifiedTime, remoteName) =>
    let dl := download_file fs localFilepath env.download
    let newLocalHash := get_local_file_hash hashFn dl.1 localFilepath
    match storeGet st fileId with
    | none => (st, dl.1, .resolutionFailed)
    | some r =>
      (storeSet st fileId
        { r with name := remoteName, localPath := localFilepath,
                 lastSyncedTime := env.now,
                 remoteModifiedTime := remoteModifiedTime,
                 localHashAtSync := newLocalHash },
       dl.1, .resolvedDownloaded)

/-- Comparison walker for the pagination claim, following the spec's words
for the Remote Tree Walker: identical to `walkLoop` except that it
enumerates every child of a folder (no 100-item page cut). -/
def walkLoopFull : List RTree → String → List WalkItem
  | [], _ => []
  | RTree.file i n m :: rest, pre =>
    let rel := pathJoin pre n
    (⟨i, n, false, m⟩, rel, pathJoin syncDir rel) :: walkLoopFull rest pre
  | RTree.folder i n m ok cs :: rest, pre =>
    let rel := pathJoin pre n
    (⟨i, n, true, m⟩, rel, pathJoin syncDir rel) ::
      ((if ok then walkLoopFull cs rel else []) ++ walkLoopFull rest pre)
termination_by l _ => sizeOf l
decreasing_by
  all_goals simp
  all_goals omega

/-- Comparison walker at the root, following the spec's words: depth-first
enumeration of all children (listing failures still abandon the subtree). -/
def full_folder_walk (t : RTree) (pre : String) : List WalkItem :=
  match t with
  | .file _ _ _ => []
  | .folder _ _ _ false _ => []
  | .folder _ _ _ true cs => walkLoopFull cs pre

/-- Drops all children beyond the first 100 of every folder of the forest. -/
def keepFirst100 : List RTree → List RTree
  | [] => []
  | RTree.file i n m :: rest => RTree.file i n m :: keepFirst100 rest
  | RTree.folder i n m ok cs :: rest =>
    RTree.folder i n m ok ((keepFirst100 cs).take 100) :: keepFirst100 rest
termination_by l => sizeOf l
decreasing_by
  all_goals simp
  all_goals omega

/-- Drops all children beyond the first 100 of every folder of the tree. -/
def keepFirst100Tree : RTree → RTree
  | .file i n m => .file i n m
  | .folder i n m ok cs => .folder i n m ok ((keepFirst100 cs).take 100)

/-- Truncation commutes with `keepFirst100`, one element at a time. -/
theorem keepFirst100_take (l : List RTree) (k : Nat) :
    keepFirst100 (l.take k) = (keepFirst100 l).take k := by
  induction l generalizing k with
  | nil => simp [keepFirst100]
  | cons c rest ih =>
    cases k with
    | zero => simp [keepFirst100]
    | succ j =>
      cases c with
      | file i n m => simp [keepFirst100, ih]
      | folder i n m ok cs => simp [keepFirst100, ih]

/-- The paginated walker loop agrees with the full walker loop on the
100-truncated forest. -/
theorem walkLoop_eq_full (n : Nat) :
    ∀ l : List RTree, sizeOf l ≤ n →
      ∀ pre, walkLoop l pre = walkLoopFull (keepFirst100 l) pre := by
  induction n with
  | zero =>
    intro l h pre
    cases l with
    | nil => simp at h
    | cons c rest => simp at h
  | succ n ih =>
    intro l h pre
    match l with
    | [] => simp [walkLoop, keepFirst100, walkLoopFull]
    | RTree.file i nm m :: rest =>
      have hr : sizeOf rest ≤ n := by simp at h; omega
      simp [walkLoop, keepFirst100, walkLoopFull, ih rest hr]
    | RTree.folder i nm m ok cs :: rest =>
      have hcons : sizeOf cs < sizeOf (RTree.folder i nm m ok cs :: rest) := by
        simp
        omega
      have hr : sizeOf rest ≤ n := by simp at h; omega
      have hcs : sizeOf (cs.take 100) ≤ n := by
        have := sizeOf_take_le cs 100
        simp at h
        omega
      simp [walkLoop, keepFirst100, walkLoopFull, ih rest hr,
        ih (cs.take 100) hcs, keepFirst100_take]

/-- Looking up the key just assigned returns the assigned record. -/
theorem storeGet_storeSet_self (st : Store) (k : String) (v : SyncRecord) :
    storeGet (storeSet st k v) k = some v := by
  induction st with
  | nil => simp [storeSet, storeGet]
  | cons e rest ih =>
    obtain ⟨f, r⟩ := e
    by_cases hf : f = k
    · simp [storeSet, storeGet, hf]
    · simp [storeSet, storeGet, hf, ih]

/-- Assignment to one key leaves every other key's lookup unchanged. -/
theorem storeGet_storeSet_ne (st : Store) (k k' : String) (v : SyncRecord)
    (h : k' ≠ k) : storeGet (storeSet st k v) k' = storeGet st k' := by
  induction st with
  | nil =>
    have hk : ¬k = k' := fun hh => h hh.symm
    simp [storeSet, storeGet, hk]
  | cons e rest ih =>
    obtain ⟨f, r⟩ := e
    by_cases hf : f = k
    · subst hf
      have hk : ¬f = k' := fun hh => h hh.symm
      simp [storeSet, storeGet, hk]
    · simp [storeSet, storeGet, hf, ih]

/-- Reading back the file just written returns the written content. -/
theorem fsGet_fsSet_self (fs : LocalFS) (p c : String) :
    fsGet (fsSet fs p c) p = some c := by
  induction fs with
  | nil => simp [fsSet, fsGet]
  | cons e rest ih =>
    obtain ⟨q, d⟩ := e
    by_cases hq : q = p
    · simp [fsSet, fsGet, hq]
    · simp [fsSet, fsGet, hq, ih]

/-- A concrete injective hasher used to instantiate the scenarios. -/
def demoHash : String → String := fun s => s

/-- The remote `Docs` folder of the tracking scenario: it contains the file
`a.txt` and a subfolder `Sub` holding the file `b.txt`; every listing
succeeds. -/
def docsTree : RTree :=
  .folder "idDocs" "Docs" 1 true
    [.file "idA" "a.txt" 10,
     .folder "idSub" "Sub" 2 true [.file "idB" "b.txt" 20]]

/-- Per-file remote behaviour for the `Docs` scenario: metadata and content
calls succeed for both files. -/
def docsRemote : Remote where
  getMeta := fun fid =>
    if fid = "idA" then some 10 else if fid = "idB" then some 20 else none
  download := fun fid =>
    if fid = "idA" then .ok "contentA"
    else if fid = "idB" then .ok "contentB"
    else .err none

/-- Result of tracking the `Docs` folder from an empty store and empty local
directory at wall-clock 100. -/
def docsTracked : Store × LocalFS :=
  start_recursive_sync demoHash docsRemote 100 [] [] docsTree "Docs"

/-- Lookup distributes over a filter that only inspects keys. -/
theorem storeGet_filter_key (st : Store) (p : String → Bool) (k : String) :
    storeGet (st.filter (fun e => p e.1)) k =
      if p k then storeGet st k else none := by
  induction st with
  | nil => simp [storeGet]
  | cons e rest ih =>
    obtain ⟨f, r⟩ := e
    by_cases hf : f = k
    · subst hf
      by_cases hp : p f
      · simp [List.filter, hp, storeGet, ih]
      · simp [List.filter, hp, storeGet, ih]
    · by_cases hp : p f
      · simp [List.filter, hp, storeGet, hf, ih]
      · simp [List.filter, hp, storeGet, hf, ih]

/-- File lookup distributes over a filter that only inspects paths. -/
theorem fsGet_filter_key (fs : LocalFS) (p : String → Bool) (q : String) :
    fsGet (fs.filter (fun e => p e.1)) q =
      if p q then fsGet fs q else none := by
  induction fs with
  | nil => simp [fsGet]
  | cons e rest ih =>
    obtain ⟨f, c⟩ := e
    by_cases hf : f = q
    · subst hf
      by_cases hp : p f
      · simp [List.filter, hp, fsGet, ih]
      · simp [List.filter, hp, fsGet, ih]
    · by_cases hp : p f
      · simp [List.filter, hp, fsGet, hf, ih]
      · simp [List.filter, hp, fsGet, hf, ih]

/-- A successful lookup exhibits a member of the store. -/
theorem mem_of_storeGet (st : Store) (k : String) (r : SyncRecord)
    (h : storeGet st k = some r) : (k, r) ∈ st := by
  induction st with
  | nil => simp [storeGet] at h
  | cons e rest ih =>
    obtain ⟨f, r'⟩ := e
    by_cases hf : f = k
    · subst hf
      simp [storeGet] at h
      simp [h]
    · simp [storeGet, hf] at h
      simp [ih h]

/-- Lookup fails exactly on the keys absent from the store. -/
theorem storeGet_eq_none_iff (st : Store) (k : String) :
    storeGet st k = none ↔ k ∉ storeKeys st := by
  induction st with
  | nil => simp [storeGet, storeKeys]
  | cons e rest ih =>
    obtain ⟨f, r⟩ := e
    by_cases hf : f = k
    · subst hf
      simp [storeGet, storeKeys]
    · have hk : ¬k = f := fun hh => hf hh.symm
      simp [storeGet, storeKeys, hf, hk, ih]

/-- With no duplicate keys, membership determines the lookup result. -/
theorem storeGet_of_mem_nodup (st : Store) (k : String) (r : SyncRecord)
    (hnd : (storeKeys st).Nodup) (h : (k, r) ∈ st) : storeGet st k = some r := by
  induction st with
  | nil => simp at h
  | cons e rest ih =>
    obtain ⟨f, r'⟩ := e
    have hcons : storeKeys ((f, r') :: rest) = f :: storeKeys rest := by
      simp [storeKeys]
    rw [hcons] at hnd
    rcases List.mem_cons.mp h with h1 | h1
    · have hk : k = f := congrArg Prod.fst h1
      have hr : r = r' := congrArg Prod.snd h1
      subst hk
      subst hr
      simp [storeGet]
    · have hk : f ≠ k := by
        intro hh
        have hmem : k ∈ storeKeys rest := by
          simpa [storeKeys] using List.mem_map_of_mem Prod.fst h1
        exact (List.nodup_cons.mp hnd).1 (by rw [hh]; exact hmem)
      simp [storeGet, hk]
      exact ih (List.nodup_cons.mp hnd).2 h1

/-- C5: for every folder the walker enumerates at most the first 100
children of the single remote listing page (`pageSize=100`, no page token),
so the paginated walk of any remote tree coincides with a full depth-first
walk of the tree whose folders keep only their first 100 children; children
beyond the first 100 are never yielded, hence never tracked, downloaded or
recursed into by the folder-tracking operation (which consumes exactly this
walk). -/
theorem walker_enumerates_first_100_children_only :
    ∀ (t : RTree) (pre : String),
      recursively_get_folder_content t pre =
        full_folder_walk (keepFirst100Tree t) pre := by
  intro t pre
  cases t with
  | file i n m =>
    simp [recursively_get_folder_content, list_files_in_folder,
      keepFirst100Tree, full_folder_walk, walkLoop]
  | folder i n m ok cs =>
    cases ok with
    | false =>
      simp [recursively_get_folder_content, list_files_in_folder,
        keepFirst100Tree, full_folder_walk]
    | true =>
      simp only [recursively_get_folder_content, list_files_in_folder,
        keepFirst100Tree, full_folder_walk, if_true]
      rw [walkLoop_eq_full (sizeOf (cs.take 100)) (cs.take 100) le_rfl pre,
        keepFirst100_take]

/-- A tracked file record used to instantiate the pull-pass claims:
last agreed remote time 3, hash of the last synced content "old". -/
def pullRec : SyncRecord :=
  ⟨"f.txt", false, "synced_files/f.txt", 50, 3, some "old", "rootF", "f.txt"⟩

/-- Local filesystem in which `pullRec`'s file was edited after the last
sync (its hash no longer matches `localHashAtSync`). -/
def pullFsEdited : LocalFS := [("synced_files/f.txt", "edited")]

/-- Local filesystem in which `pullRec`'s file is untouched since the last
sync. -/
def pullFsClean : LocalFS := [("synced_files/f.txt", "old")]

/-- Pull environment observing a remote modification time 5 (newer than the
record's 3) with a successful metadata fetch. -/
def pullEnvNewer : PullEnv := ⟨some (5, "f.txt"), DownloadOutcome.ok "remote", 60⟩

/-- Pull environment observing remote time 5 whose content download fails
after truncating the local file (`open(path, "wb")` succeeded, a chunk
raised). -/
def pullEnvNewerBadDl : PullEnv := ⟨some (5, "f.txt"), DownloadOutcome.err (some ""), 60⟩

/-- C2: in the pull pass, a record whose stored remote time is strictly
older than the observed remote time and whose current local hash differs
from `localHashAtSync` is flagged CONFLICT: no download happens, the
filesystem is untouched and every persisted field of the record is
unchanged. -/
theorem pull_conflict_detection (hashFn : String → String) (env : PullEnv)
    (r : SyncRecord) (fs : LocalFS) (t1 : Nat) (rname : String)
    (hf : r.isFolder = false) (hm : env.meta = some (t1, rname))
    (ht : t1 > r.remoteModifiedTime)
    (hh : get_local_file_hash hashFn fs r.localPath ≠ r.localHashAtSync) :
    checkRemoteItem hashFn env r fs = (r, fs, .conflictDetected, []) := by
  simp [checkRemoteItem, hf, hm, ht, hh]

/-- Witness for C2 at a concrete record, filesystem and environment. -/
theorem pull_conflict_detection_witness :
    (pullRec.isFolder = false ∧ pullEnvNewer.meta = some (5, "f.txt")
      ∧ 5 > pullRec.remoteModifiedTime
      ∧ get_local_file_hash demoHash pullFsEdited pullRec.localPath
          ≠ pullRec.localHashAtSync)
    ∧ checkRemoteItem demoHash pullEnvNewer pullRec pullFsEdited
        = (pullRec, pullFsEdited, .conflictDetected, []) :=
  ⟨⟨by decide, by decide, by decide, by decide⟩,
   pull_conflict_detection demoHash pullEnvNewer pullRec pullFsEdited 5 "f.txt"
     (by decide) (by decide) (by decide) (by decide)⟩

/-- C3: push-pass behaviour for a non-folder record whose local file
exists: an unchanged hash is skipped with the record untouched; a strictly
newer remote time is flagged CONFLICT with nothing uploaded; otherwise the
content is uploaded and the record's `remoteModifiedTime` is refreshed from
the post-upload metadata, `localHashAtSync` becomes the current local hash
and `lastSyncedTime` the current time. -/
theorem push_pass_behavior (hashFn : String → String) (env : PushEnv)
    (fid : String) (r : SyncRecord) (fs : LocalFS) (content : String)
    (hf : r.isFolder = false) (hc : fsGet fs r.localPath = some content) :
    (some (hashFn content) = r.localHashAtSync →
       checkLocalItem hashFn env fid r fs = (r, .unchangedSkipped, []))
    ∧ (∀ t1 rname, some (hashFn content) ≠ r.localHashAtSync →
         env.meta = some (t1, rname) → t1 > r.remoteModifiedTime →
         checkLocalItem hashFn env fid r fs = (r, .conflictDetected, []))
    ∧ (∀ t1 rname t2, some (hashFn content) ≠ r.localHashAtSync →
         env.meta = some (t1, rname) → ¬t1 > r.remoteModifiedTime →
         env.uploadOk = true → env.metaAfter = some t2 →
         checkLocalItem hashFn env fid r fs =
           ({ r with lastSyncedTime := env.now,
                     localHashAtSync := some (hashFn content),
                     remoteModifiedTime := t2 }, .uploaded, [.uploadCall fid])) := by
  refine ⟨?_, ?_, ?_⟩
  · intro he
    simp [checkLocalItem, hf, hc, he]
  · intro t1 rname hne hm ht
    simp [checkLocalItem, hf, hc, hne, hm, ht]
  · intro t1 rname t2 hne hm ht hu hm2
    simp [checkLocalItem, hf, hc, hne, hm, ht, hu, hm2]

/-- A tracked file record used to instantiate the push-pass claim: last
agreed remote time 7, hash of the last synced content "A". -/
def pushRec : SyncRecord :=
  ⟨"r.csv", false, "synced_files/r.csv", 40, 7, some "A", "rootR", "r.csv"⟩

/-- Local filesystem in which `pushRec`'s file was edited to content "B". -/
def pushFs : LocalFS := [("synced_files/r.csv", "B")]

/-- Push environment: the pre-upload metadata still shows remote time 7,
the upload succeeds, and the post-upload metadata shows remote time 9. -/
def pushEnv : PushEnv := ⟨some (7, "r.csv"), true, some 9, 99⟩

/-- Witness for C3 at a concrete record, filesystem and environment
(the upload branch). -/
theorem push_pass_behavior_witness :
    (pushRec.isFolder = false ∧ fsGet pushFs pushRec.localPath = some "B")
    ∧ checkLocalItem demoHash pushEnv "idR" pushRec pushFs =
        ({ pushRec with lastSyncedTime := pushEnv.now,
                        localHashAtSync := some (demoHash "B"),
                        remoteModifiedTime := 9 },
         .uploaded, [.uploadCall "idR"]) :=
  ⟨⟨by decide, by decide⟩,
   (push_pass_behavior demoHash pushEnv "idR" pushRec pushFs "B"
       (by decide) (by decide)).2.2 7 "r.csv" 9
     (by decide) (by decide) (by decide) (by decide) (by decide)⟩

/-- C9: `download_and_track` for a file fetches the remote modification
time first and only then downloads; if the metadata fetch raises, the
store and the filesystem are untouched and `false` is returned; if the
download fails, the store is untouched (the partial local write may remain)
and `false` is returned; on success the new record stores the
pre-download modification time and the hash of the downloaded content. -/
theorem download_and_track_atomicity (hashFn : String → String) (rm : Remote)
    (now : Nat) (st : Store) (fs : LocalFS) (fid fname rel full rootId : String) :
    (rm.getMeta fid = none →
       download_and_track hashFn rm now st fs fid fname false rel full rootId
         = (st, fs, false))
    ∧ (∀ mt, rm.getMeta fid = some mt →
         (download_file fs full (rm.download fid)).2 = false →
         download_and_track hashFn rm now st fs fid fname false rel full rootId
           = (st, (download_file fs full (rm.download fid)).1, false))
    ∧ (∀ mt c, rm.getMeta fid = some mt → rm.download fid = .ok c →
         download_and_track hashFn rm now st fs fid fname false rel full rootId
           = (storeSet st fid
               { name := fname, isFolder := false, localPath := full,
                 lastSyncedTime := now, remoteModifiedTime := mt,
                 localHashAtSync := some (hashFn c), driveRootId := rootId,
                 driveRelativePath := rel }, fsSet fs full c, true)) := by
  refine ⟨?_, ?_, ?_⟩
  · intro hm
    simp [download_and_track, hm]
  · intro mt hm hd
    simp [download_and_track, hm, hd]
  · intro mt c hm hd
    simp [download_and_track, hm, hd, download_file, get_local_file_hash,
      fsGet_fsSet_self]

/-- Witness for C9: a metadata failure ("idZ" is unknown to `docsRemote`)
creates no record, and tracking "idA" stores the pre-download time 10 and
the downloaded content's hash. -/
theorem download_and_track_atomicity_witness :
    (docsRemote.getMeta "idZ" = none ∧
       download_and_track demoHash docsRemote 100 [] [] "idZ" "z.txt" false
         "z.txt" "synced_files/z.txt" "rootZ" = ([], [], false))
    ∧ (docsRemote.getMeta "idA" = some 10
        ∧ docsRemote.download "idA" = .ok "contentA"
        ∧ download_and_track demoHash docsRemote 100 [] [] "idA" "a.txt" false
            "a.txt" "synced_files/a.txt" "rootZ"
          = (storeSet [] "idA"
              { name := "a.txt", isFolder := false,
                localPath := "synced_files/a.txt", lastSyncedTime := 100,
                remoteModifiedTime := 10,
                localHashAtSync := some (demoHash "contentA"),
                driveRootId := "rootZ", driveRelativePath := "a.txt" },
             fsSet [] "synced_files/a.txt" "contentA", true)) :=
  ⟨⟨by decide,
    (download_and_track_atomicity demoHash docsRemote 100 [] [] "idZ" "z.txt"
        "z.txt" "synced_files/z.txt" "rootZ").1 (by decide)⟩,
   ⟨by decide, by decide,
    (download_and_track_atomicity demoHash docsRemote 100 [] [] "idA" "a.txt"
        "a.txt" "synced_files/a.txt" "rootZ").2.2 10 "contentA"
      (by decide) (by decide)⟩⟩

/-- Pull environment whose metadata fetch raises. -/
def pullEnvErr : PullEnv := ⟨none, DownloadOutcome.err none, 60⟩

/-- Counterexample to C1: with the remote newer and the local file untouched,
a failing content download (caught inside `download_file`, which truncates
the file and returns failure) does not leave the item unchanged — the pull
pass still rewrites the record and the local file has been truncated. -/
theorem pull_download_failure_mutates_item :
    (download_file pullFsClean pullRec.localPath pullEnvNewerBadDl.download).2 = false
    ∧ (checkRemoteItem demoHash pullEnvNewerBadDl pullRec pullFsClean).1 ≠ pullRec
    ∧ (checkRemoteItem demoHash pullEnvNewerBadDl pullRec pullFsClean).2.1 ≠ pullFsClean := by
  refine ⟨by decide, by decide, by decide⟩

/-- C1 (amended): in the pull pass, a raised remote call (metadata fetch)
leaves the record and the local file unchanged; but when the remote is newer
and the local hash still matches, the download branch refreshes the record
from whatever ends up on disk regardless of the download's success — a
failed download still rewrites `name`, `remoteModifiedTime`,
`localHashAtSync` and `lastSyncedTime` and may leave a truncated file. -/
theorem pull_failure_handling (hashFn : String → String) (env : PullEnv)
    (r : SyncRecord) (fs : LocalFS) :
    (r.isFolder = false → env.meta = none →
       checkRemoteItem hashFn env r fs = (r, fs, .errorCaught, []))
    ∧ (∀ t1 rname, r.isFolder = false → env.meta = some (t1, rname) →
         t1 > r.remoteModifiedTime →
         get_local_file_hash hashFn fs r.localPath = r.localHashAtSync →
         checkRemoteItem hashFn env r fs =
           ({ r with name := rname, lastSyncedTime := env.now,
                     remoteModifiedTime := t1,
                     localHashAtSync := get_local_file_hash hashFn
                       (download_file fs r.localPath env.download).1 r.localPath },
            (download_file fs r.localPath env.download).1, .downloaded,
            [.downloadCall r.name r.localPath])) := by
  constructor
  · intro hf hm
    simp [checkRemoteItem, hf, hm]
  · intro t1 rname hf hm ht hh
    simp [checkRemoteItem, hf, hm, ht, hh]

/-- Witness for the amended C1: the exception branch at a concrete input,
and the download branch applied where the download fails, showing the
rewritten record. -/
theorem pull_failure_handling_witness :
    (pullRec.isFolder = false ∧ pullEnvErr.meta = none
      ∧ checkRemoteItem demoHash pullEnvErr pullRec pullFsClean
          = (pullRec, pullFsClean, .errorCaught, []))
    ∧ (pullEnvNewerBadDl.meta = some (5, "f.txt")
      ∧ 5 > pullRec.remoteModifiedTime
      ∧ get_local_file_hash demoHash pullFsClean pullRec.localPath
          = pullRec.localHashAtSync
      ∧ checkRemoteItem demoHash pullEnvNewerBadDl pullRec pullFsClean =
          ({ pullRec with name := "f.txt", lastSyncedTime := pullEnvNewerBadDl.now,
                          remoteModifiedTime := 5,
                          localHashAtSync := get_local_file_hash demoHash
                            (download_file pullFsClean pullRec.localPath
                              pullEnvNewerBadDl.download).1 pullRec.localPath },
           (download_file pullFsClean pullRec.localPath pullEnvNewerBadDl.download).1,
           .downloaded, [.downloadCall pullRec.name pullRec.localPath])) :=
  ⟨⟨by decide, by decide,
    (pull_failure_handling demoHash pullEnvErr pullRec pullFsClean).1
      (by decide) (by decide)⟩,
   ⟨by decide, by decide, by decide,
    (pull_failure_handling demoHash pullEnvNewerBadDl pullRec pullFsClean).2
      5 "f.txt" (by decide) (by decide) (by decide) (by decide)⟩⟩

/-- A one-record store holding the conflicted file, for the KEEP_REMOTE
resolution scenarios. -/
def resolveSt : Store := [("idF", pullRec)]

/-- Resolution environment whose metadata fetch succeeds but whose content
download fails, leaving partial bytes on disk. -/
def resolveEnvBadDl : PullEnv := ⟨some (9, "f.txt"), DownloadOutcome.err (some "junk"), 70⟩

/-- Resolution environment in which everything succeeds. -/
def resolveEnvOk : PullEnv := ⟨some (9, "f.txt"), DownloadOutcome.ok "fresh", 70⟩

/-- Counterexample to C7: when the content download of a KEEP_REMOTE
resolution fails (caught inside `download_file`), the worker still reports
the conflict as successfully resolved and rewrites the record, instead of
surfacing a failed-resolution state. -/
theorem resolve_download_failure_reports_success :
    (download_file pullFsClean "synced_files/f.txt" resolveEnvBadDl.download).2 = false
    ∧ (resolve_conflict_download demoHash resolveEnvBadDl resolveSt pullFsClean
        "idF" "synced_files/f.txt").2.2 = .resolvedDownloaded
    ∧ (resolve_conflict_download demoHash resolveEnvBadDl resolveSt pullFsClean
        "idF" "synced_files/f.txt").1 ≠ resolveSt := by
  refine ⟨by decide, by decide, by decide⟩

/-- C7 (amended): KEEP_REMOTE re-downloads and refreshes `name`,
`localHashAtSync`, `remoteModifiedTime` and `lastSyncedTime` and reports the
resolved state; a raised metadata fetch yields the distinguishable
failed-resolution state with nothing changed; but a failure of the content
download itself is not detected — the resolution is still reported as
successful, with the record refreshed from the file's current bytes. -/
theorem resolve_conflict_download_behavior (hashFn : String → String)
    (env : PullEnv) (st : Store) (fs : LocalFS) (fid path : String) :
    (∀ mt rname c r, env.meta = some (mt, rname) → env.download = .ok c →
       storeGet st fid = some r →
       resolve_conflict_download hashFn env st fs fid path =
         (storeSet st fid
           { r with name := rname, localPath := path, lastSyncedTime := env.now,
                    remoteModifiedTime := mt, localHashAtSync := some (hashFn c) },
          fsSet fs path c, .resolvedDownloaded))
    ∧ (env.meta = none →
         resolve_conflict_download hashFn env st fs fid path = (st, fs, .resolutionFailed))
    ∧ (∀ mt rname r, env.meta = some (mt, rname) → storeGet st fid = some r →
         (resolve_conflict_download hashFn env st fs fid path).2.2 = .resolvedDownloaded) := by
  refine ⟨?_, ?_, ?_⟩
  · intro mt rname c r hm hd hr
    simp [resolve_conflict_download, hm, hd, hr, download_file,
      get_local_file_hash, fsGet_fsSet_self]
  · intro hm
    simp [resolve_conflict_download, hm]
  · intro mt rname r hm hr
    simp [resolve_conflict_download, hm, hr]

/-- Witness for the amended C7: the success path and the exception path at
concrete inputs. -/
theorem resolve_conflict_download_behavior_witness :
    (resolveEnvOk.meta = some (9, "f.txt")
      ∧ resolveEnvOk.download = .ok "fresh"
      ∧ storeGet resolveSt "idF" = some pullRec
      ∧ resolve_conflict_download demoHash resolveEnvOk resolveSt pullFsClean
          "idF" "synced_files/f.txt" =
          (storeSet resolveSt "idF"
            { pullRec with name := "f.txt", localPath := "synced_files/f.txt",
                           lastSyncedTime := resolveEnvOk.now,
                           remoteModifiedTime := 9,
                           localHashAtSync := some (demoHash "fresh") },
           fsSet pullFsClean "synced_files/f.txt" "fresh", .resolvedDownloaded))
    ∧ (pullEnvErr.meta = none
      ∧ resolve_conflict_download demoHash pullEnvErr resolveSt pullFsClean
          "idF" "synced_files/f.txt" = (resolveSt, pullFsClean, .resolutionFailed)) :=
  ⟨⟨by decide, by decide, by decide,
    (resolve_conflict_download_behavior demoHash resolveEnvOk resolveSt pullFsClean
        "idF" "synced_files/f.txt").1 9 "f.txt" "fresh" pullRec
      (by decide) (by decide) (by decide)⟩,
   ⟨by decide,
    (resolve_conflict_download_behavior demoHash pullEnvErr resolveSt pullFsClean
        "idF" "synced_files/f.txt").2.1 (by decide)⟩⟩

/-- Concrete value of the walk over the `Docs` scenario tree (the walker is
defined by well-founded recursion, so the closed scenario theorems first
rewrite with this evaluation). -/
theorem docsWalk_eval :
    recursively_get_folder_content docsTree "Docs" =
      [(⟨"idA", "a.txt", false, 10⟩, "Docs/a.txt", "synced_files/Docs/a.txt"),
       (⟨"idSub", "Sub", true, 2⟩, "Docs/Sub", "synced_files/Docs/Sub"),
       (⟨"idB", "b.txt", false, 20⟩, "Docs/Sub/b.txt",
        "synced_files/Docs/Sub/b.txt")] := by
  have t1 : [RTree.file "idA" "a.txt" 10,
      RTree.folder "idSub" "Sub" 2 true [RTree.file "idB" "b.txt" 20]].take 100
      = [RTree.file "idA" "a.txt" 10,
         RTree.folder "idSub" "Sub" 2 true [RTree.file "idB" "b.txt" 20]] :=
    List.take_of_length_le (by simp)
  have t2 : [RTree.file "idB" "b.txt" 20].take 100
      = [RTree.file "idB" "b.txt" 20] :=
    List.take_of_length_le (by simp)
  simp [recursively_get_folder_content, docsTree, list_files_in_folder,
    t1, t2, walkLoop, pathJoin, syncDir]

/-- Counterexample to C4: tracking the `Docs` folder (containing `a.txt` and
`Sub/b.txt`) with every per-item operation succeeding does not create
exactly 3 records — the subfolder `Sub` also receives a record. -/
theorem track_docs_scenario_not_three_records :
    ¬(docsTracked.1.length = 3) := by
  have h1 : docsTracked = List.foldl (trackStep demoHash docsRemote 100 "idDocs")
      ([("idDocs", ⟨"Docs", true, "synced_files/Docs", 100, 0, some "",
        "idDocs", "Docs"⟩)], [])
      (recursively_get_folder_content docsTree "Docs") := rfl
  rw [h1, docsWalk_eval]
  decide

/-- C4 (amended): tracking `Docs` creates exactly 4 records — `Docs`,
`a.txt`, `Sub` and `b.txt` — with `driveRelativePath` values `Docs`,
`Docs/a.txt`, `Docs/Sub` and `Docs/Sub/b.txt` and with `driveRootId` equal
to `Docs`'s id on every record; both files' contents are downloaded into
the corresponding local paths. -/
theorem track_docs_scenario_four_records :
    docsTracked =
      ([("idDocs", ⟨"Docs", true, "synced_files/Docs", 100, 0, some "",
          "idDocs", "Docs"⟩),
        ("idA", ⟨"a.txt", false, "synced_files/Docs/a.txt", 100, 10,
          some "contentA", "idDocs", "Docs/a.txt"⟩),
        ("idSub", ⟨"Sub", true, "synced_files/Docs/Sub", 100, 0, some "",
          "idDocs", "Docs/Sub"⟩),
        ("idB", ⟨"b.txt", false, "synced_files/Docs/Sub/b.txt", 100, 20,
          some "contentB", "idDocs", "Docs/Sub/b.txt"⟩)],
       [("synced_files/Docs/a.txt", "contentA"),
        ("synced_files/Docs/Sub/b.txt", "contentB")]) := by
  have h1 : docsTracked = List.foldl (trackStep demoHash docsRemote 100 "idDocs")
      ([("idDocs", ⟨"Docs", true, "synced_files/Docs", 100, 0, some "",
        "idDocs", "Docs"⟩)], [])
      (recursively_get_folder_content docsTree "Docs") := rfl
  rw [h1, docsWalk_eval]
  decide

/-- Processing one item does not disturb the stored record of any other id,
whatever the item's kind and outcome. -/
theorem storeGet_download_and_track_ne (hashFn : String → String) (rm : Remote)
    (now : Nat) (st : Store) (fs : LocalFS) (fid fname : String) (isF : Bool)
    (rel full rootId k : String) (h : k ≠ fid) :
    storeGet (download_and_track hashFn rm now st fs fid fname isF rel full rootId).1 k
      = storeGet st k := by
  cases isF with
  | true => simp [download_and_track, storeGet_storeSet_ne _ _ _ _ h]
  | false =>
    cases hrm : rm.getMeta fid with
    | none => simp [download_and_track, hrm]
    | some mt =>
      by_cases hdl : (download_file fs full (rm.download fid)).2 = false
      · simp [download_and_track, hrm, hdl]
      · simp [download_and_track, hrm, hdl, storeGet_storeSet_ne _ _ _ _ h]

/-- Folding the tracking step over items whose ids all differ from `k`
leaves `k`'s stored record as it was. -/
theorem storeGet_track_fold_ne (hashFn : String → String) (rm : Remote)
    (now : Nat) (rootId k : String) (items : List WalkItem) :
    ∀ acc : Store × LocalFS, (∀ it ∈ items, it.1.id ≠ k) →
      storeGet (items.foldl (trackStep hashFn rm now rootId) acc).1 k
        = storeGet acc.1 k := by
  induction items with
  | nil => intro acc _; rfl
  | cons it rest ih =>
    intro acc h
    rw [List.foldl_cons,
      ih _ (fun x hx => h x (List.mem_cons_of_mem _ hx))]
    exact storeGet_download_and_track_ne hashFn rm now acc.1 acc.2 it.1.id
      it.1.name it.1.isFolder it.2.1 it.2.2 rootId k
      (fun hh => h it (List.mem_cons_self _ _) hh.symm)

/-- Remote behaviour for the single-file counterexample: metadata and
content calls always succeed. -/
def c6Remote : Remote := ⟨fun _ => some 7, fun _ => DownloadOutcome.ok "data"⟩

/-- Counterexample to C6: tracking the single file "idF" while browsing the
folder "folderX" stores `driveRootId = "folderX"`, not the file's own id. -/
theorem single_file_track_root_is_current_folder :
    ((storeGet (toggle_sync_track_file demoHash c6Remote 50 [] [] "idF"
        "f.txt" "folderX").1 "idF").map SyncRecord.driveRootId = some "folderX")
    ∧ ¬((storeGet (toggle_sync_track_file demoHash c6Remote 50 [] [] "idF"
        "f.txt" "folderX").1 "idF").map SyncRecord.driveRootId = some "idF") := by
  refine ⟨by decide, by decide⟩

/-- C6 (amended): a folder tracking root's record has `driveRootId` equal to
its own id (provided no descendant reuses the root's id), but the record
created by tracking a single file has `driveRootId` equal to the id of the
folder currently open in the browser, not the file's own remote id. -/
theorem tracking_root_drive_root_id (hashFn : String → String) (rm : Remote)
    (now : Nat) (st : Store) (fs : LocalFS) :
    (∀ (t : RTree) (folderName : String),
       (∀ it ∈ recursively_get_folder_content t folderName, it.1.id ≠ t.idOf) →
       (storeGet (start_recursive_sync hashFn rm now st fs t folderName).1
           t.idOf).map SyncRecord.driveRootId = some t.idOf)
    ∧ (∀ fid fname currentFolderId mt c, rm.getMeta fid = some mt →
         rm.download fid = .ok c →
         (storeGet (toggle_sync_track_file hashFn rm now st fs fid fname
             currentFolderId).1 fid).map SyncRecord.driveRootId
           = some currentFolderId) := by
  constructor
  · intro t folderName hids
    unfold start_recursive_sync
    rw [storeGet_track_fold_ne hashFn rm now t.idOf t.idOf _ _ hids]
    simp [download_and_track, storeGet_storeSet_self]
  · intro fid fname currentFolderId mt c hm hd
    simp [toggle_sync_track_file, download_and_track, hm, hd, download_file,
      storeGet_storeSet_self]

/-- Witness for the amended C6: the `Docs` scenario root keeps its own id as
`driveRootId`, and the tracked single file gets the browsed folder's id. -/
theorem tracking_root_drive_root_id_witness :
    ((storeGet (start_recursive_sync demoHash docsRemote 100 [] [] docsTree
        "Docs").1 docsTree.idOf).map SyncRecord.driveRootId = some docsTree.idOf)
    ∧ (c6Remote.getMeta "idF" = some 7
      ∧ c6Remote.download "idF" = .ok "data"
      ∧ (storeGet (toggle_sync_track_file demoHash c6Remote 50 [] [] "idF"
          "f.txt" "folderX").1 "idF").map SyncRecord.driveRootId = some "folderX") :=
  ⟨(tracking_root_drive_root_id demoHash docsRemote 100 [] []).1 docsTree "Docs"
     (by
       simp only [docsWalk_eval]
       decide),
   ⟨by decide, by decide,
    (tracking_root_drive_root_id demoHash c6Remote 50 [] []).2 "idF" "f.txt"
      "folderX" 7 "data" (by decide) (by decide)⟩⟩

/-- A successful file lookup exhibits a member of the filesystem. -/
theorem mem_of_fsGet (fs : LocalFS) (q c : String) (h : fsGet fs q = some c) :
    (q, c) ∈ fs := by
  induction fs with
  | nil => simp [fsGet] at h
  | cons e rest ih =>
    obtain ⟨p, d⟩ := e
    by_cases hp : p = q
    · subst hp
      simp [fsGet] at h
      simp [h]
    · simp [fsGet, hp] at h
      simp [ih h]

/-- Removing the ids of `unsyncItems` filters the store by key membership. -/
theorem storeGet_unsync_filter (st : Store) (items : List String) (k : String) :
    storeGet (st.filter (fun e => decide (e.1 ∉ items))) k =
      if k ∉ items then storeGet st k else none := by
  have h := storeGet_filter_key st (fun x => decide (x ∉ items)) k
  by_cases hk : k ∈ items
  · simpa [hk] using h
  · simpa [hk] using h

/-- Deleting a directory tree removes exactly the files at or below it. -/
theorem fsGet_rmtree (fs : LocalFS) (root q : String) :
    fsGet (rmtree fs root) q = if underPath root q then none else fsGet fs q := by
  induction fs with
  | nil => simp [rmtree, fsGet]
  | cons e rest ih =>
    obtain ⟨p, c⟩ := e
    by_cases hp : p = q
    · subst hp
      by_cases hu : underPath root p
      · simp [rmtree, List.filter, hu, fsGet] at ih ⊢
        exact ih
      · simp [rmtree, List.filter, hu, fsGet]
    · by_cases hu : underPath root p
      · simp [rmtree, List.filter, hu, fsGet, hp] at ih ⊢
        exact ih
      · simp [rmtree, List.filter, hu, fsGet, hp] at ih ⊢
        exact ih

/-- Deleting a single file removes exactly that path. -/
theorem fsGet_fsRemove (fs : LocalFS) (p q : String) :
    fsGet (fsRemove fs p) q = if q = p then none else fsGet fs q := by
  have h := fsGet_filter_key fs (fun x => decide (x ≠ p)) q
  by_cases hq : q = p
  · simpa [fsRemove, hq] using h
  · simpa [fsRemove, hq] using h

/-- Membership in `items_to_unsync` is exactly "the stored record matches the
untracked id" (for stores without duplicate keys). -/
theorem mem_unsyncItems_iff (st : Store) (dId fid : String)
    (hnd : (storeKeys st).Nodup) :
    fid ∈ unsyncItems st dId ↔
      ∃ r, storeGet st fid = some r ∧ (r.driveRootId = dId ∨ fid = dId) := by
  constructor
  · intro h
    obtain ⟨e, he, hfst⟩ := List.mem_map.mp h
    obtain ⟨f, r⟩ := e
    obtain ⟨hmem, hpred⟩ := List.mem_filter.mp he
    subst hfst
    refine ⟨r, storeGet_of_mem_nodup st f r hnd hmem, ?_⟩
    simpa using hpred
  · rintro ⟨r, hget, hor⟩
    apply List.mem_map.mpr
    refine ⟨(fid, r), List.mem_filter.mpr ⟨mem_of_storeGet st fid r hget, ?_⟩, rfl⟩
    simpa using hor

/-- C8: `untrack(id)` removes exactly the records whose `driveRootId` equals
`id` together with the record whose own id is `id`; for the record matching
`id` it deletes the single local file (file record) or every file in the
local directory tree (folder record).  In particular no record whose
`driveRootId` equals the untracked id survives. -/
theorem untrack_removes_matching_records (st : Store) (fs : LocalFS)
    (dId : String) (hnd : (storeKeys st).Nodup) :
    (∀ fid, storeGet (recursively_unsync st fs dId).1 fid =
       match storeGet st fid with
       | none => none
       | some r => if r.driveRootId = dId ∨ fid = dId then none else some r)
    ∧ (∀ r, storeGet st dId = some r → r.isFolder = true →
        ∀ q, fsGet (recursively_unsync st fs dId).2 q =
          if underPath r.localPath q then none else fsGet fs q)
    ∧ (∀ r, storeGet st dId = some r → r.isFolder = false →
        ∀ q, fsGet (recursively_unsync st fs dId).2 q =
          if q = r.localPath then none else fsGet fs q) := by
  refine ⟨?_, ?_, ?_⟩
  · intro fid
    have h1 : (recursively_unsync st fs dId).1
        = st.filter (fun e => decide (e.1 ∉ unsyncItems st dId)) := rfl
    rw [h1, storeGet_unsync_filter]
    rcases hget : storeGet st fid with _ | r
    · simp
    · by_cases hpred : r.driveRootId = dId ∨ fid = dId
      · have hin : fid ∈ unsyncItems st dId :=
          (mem_unsyncItems_iff st dId fid hnd).mpr ⟨r, hget, hpred⟩
        simp [hpred, hin]
      · have hout : fid ∉ unsyncItems st dId := by
          intro hin
          obtain ⟨r', hget', hor⟩ := (mem_unsyncItems_iff st dId fid hnd).mp hin
          rw [hget] at hget'
          injection hget' with hrr
          subst hrr
          exact hpred hor
        simp [hpred, hout]
  · intro r hget hf q
    have h2 : (recursively_unsync st fs dId).2
        = if fsDirExists fs r.localPath then rmtree fs r.localPath else fs := by
      simp [recursively_unsync, hget, hf]
    rw [h2]
    by_cases hex : fsDirExists fs r.localPath
    · simp [hex, fsGet_rmtree]
    · simp [hex]
      by_cases hu : underPath r.localPath q
      · simp [hu]
        rcases hq : fsGet fs q with _ | c
        · rfl
        · exfalso
          have hmem := mem_of_fsGet fs q c hq
          exact hex (by
            simp only [fsDirExists, List.any_eq_true]
            exact ⟨(q, c), hmem, hu⟩)
      · simp [hu]
  · intro r hget hf q
    have h2 : (recursively_unsync st fs dId).2
        = if fsFileExists fs r.localPath then fsRemove fs r.localPath else fs := by
      simp [recursively_unsync, hget, hf]
    rw [h2]
    by_cases hex : fsFileExists fs r.localPath
    · simp [hex, fsGet_fsRemove]
    · have hnone : fsGet fs r.localPath = none := by
        rcases hq : fsGet fs r.localPath with _ | c
        · rfl
        · exact absurd (by simp [fsFileExists, hq]) hex
      simp [hex]
      by_cases hq : q = r.localPath
      · subst hq
        simp [hnone]
      · simp [hq]

/-- The four records produced by tracking the `Docs` scenario, written out. -/
def demoStore : Store :=
  [("idDocs", ⟨"Docs", true, "synced_files/Docs", 100, 0, some "",
     "idDocs", "Docs"⟩),
   ("idA", ⟨"a.txt", false, "synced_files/Docs/a.txt", 100, 10,
     some "contentA", "idDocs", "Docs/a.txt"⟩),
   ("idSub", ⟨"Sub", true, "synced_files/Docs/Sub", 100, 0, some "",
     "idDocs", "Docs/Sub"⟩),
   ("idB", ⟨"b.txt", false, "synced_files/Docs/Sub/b.txt", 100, 20,
     some "contentB", "idDocs", "Docs/Sub/b.txt"⟩)]

/-- The local files produced by tracking the `Docs` scenario. -/
def demoFS : LocalFS :=
  [("synced_files/Docs/a.txt", "contentA"),
   ("synced_files/Docs/Sub/b.txt", "contentB")]

/-- The root record of the `Docs` scenario. -/
def demoRootRec : SyncRecord :=
  ⟨"Docs", true, "synced_files/Docs", 100, 0, some "", "idDocs", "Docs"⟩

/-- Witness for C8: untracking the `Docs` root removes the subfolder's
record and deletes the file inside the subfolder. -/
theorem untrack_removes_matching_records_witness :
    (storeKeys demoStore).Nodup
    ∧ storeGet (recursively_unsync demoStore demoFS "idDocs").1 "idSub" = none
    ∧ fsGet (recursively_unsync demoStore demoFS "idDocs").2
        "synced_files/Docs/Sub/b.txt" = none :=
  ⟨by decide,
   by
     have h := (untrack_removes_matching_records demoStore demoFS "idDocs"
       (by decide)).1 "idSub"
     rw [h]
     decide,
   by
     have h := (untrack_removes_matching_records demoStore demoFS "idDocs"
       (by decide)).2.1 demoRootRec (by decide) (by decide)
       "synced_files/Docs/Sub/b.txt"
     rw [h]
     decide⟩

/-- A store holding a single-file record whose `driveRootId` names a folder
that itself has no record (exactly what `toggle_sync` produces, since it
uses the browsed folder's id as the sync root). -/
def orphanStore : Store :=
  [("fileA", ⟨"a", false, "synced_files/a", 1, 1, some "x", "folderX", "a"⟩)]

/-- When the untracked id has no record, `_recursively_unsync` touches no
local file. -/
theorem recursively_unsync_snd_of_none (st : Store) (fs : LocalFS)
    (dId : String) (h : storeGet st dId = none) :
    (recursively_unsync st fs dId).2 = fs := by
  simp [recursively_unsync, h]

/-- Counterexample to C10: untracking the id "folderX", which has no record
in the store, is not a no-op — it removes the record of "fileA", whose
`driveRootId` is "folderX". -/
theorem untrack_missing_id_not_noop :
    storeGet orphanStore "folderX" = none
    ∧ (recursively_unsync orphanStore [] "folderX").1 ≠ orphanStore := by
  refine ⟨by decide, by decide⟩

/-- C10 (amended): `untrack` is idempotent — a second call on the same id
changes neither the store nor the filesystem — and untracking an id that has
no record and that no surviving record names as its `driveRootId` is a
no-op (no error is raised in either case; when other records do name the id
as their `driveRootId`, as single-file tracking arranges for the browsed
folder, they are removed even though the id itself has no record). -/
theorem untrack_idempotent (st : Store) (fs : LocalFS) (dId : String) :
    (recursively_unsync (recursively_unsync st fs dId).1
        (recursively_unsync st fs dId).2 dId = recursively_unsync st fs dId)
    ∧ (storeGet st dId = none → (∀ e ∈ st, e.2.driveRootId ≠ dId) →
        recursively_unsync st fs dId = (st, fs)) := by
  constructor
  · have hfilter : ∀ e ∈ (recursively_unsync st fs dId).1,
        (decide (e.2.driveRootId = dId) || decide (e.1 = dId)) = false := by
      intro e he
      have h1 : (recursively_unsync st fs dId).1
          = st.filter (fun x => decide (x.1 ∉ unsyncItems st dId)) := rfl
      rw [h1] at he
      obtain ⟨hmem, hnot⟩ := List.mem_filter.mp he
      by_contra hq
      have hq' : (decide (e.2.driveRootId = dId) || decide (e.1 = dId)) = true := by
        revert hq
        cases decide (e.2.driveRootId = dId) || decide (e.1 = dId) <;> simp
      have hin : e.1 ∈ unsyncItems st dId :=
        List.mem_map.mpr ⟨e, List.mem_filter.mpr ⟨hmem, hq'⟩, rfl⟩
      simp at hnot
      exact hnot hin
    have hitems : unsyncItems (recursively_unsync st fs dId).1 dId = [] := by
      have hfil : (recursively_unsync st fs dId).1.filter
          (fun e => decide (e.2.driveRootId = dId) || decide (e.1 = dId)) = [] :=
        List.filter_eq_nil_iff.mpr (fun a ha => by simp [hfilter a ha])
      simp [unsyncItems, hfil]
    have hget' : storeGet (recursively_unsync st fs dId).1 dId = none := by
      have h1 : (recursively_unsync st fs dId).1
          = st.filter (fun x => decide (x.1 ∉ unsyncItems st dId)) := rfl
      rw [h1, storeGet_unsync_filter]
      by_cases hin : dId ∈ unsyncItems st dId
      · simp [hin]
      · simp [hin]
        rcases hq : storeGet st dId with _ | r
        · rfl
        · exact absurd
            (List.mem_map.mpr ⟨(dId, r),
              List.mem_filter.mpr ⟨mem_of_storeGet st dId r hq, by simp⟩, rfl⟩)
            hin
    refine Prod.ext ?_ ?_
    · show (recursively_unsync st fs dId).1.filter
          (fun e => decide (e.1 ∉ unsyncItems (recursively_unsync st fs dId).1 dId))
        = (recursively_unsync st fs dId).1
      apply List.filter_eq_self.mpr
      intro a _
      simp [hitems]
    · exact recursively_unsync_snd_of_none _ _ _ hget'
  · intro hnone hroot
    have hfil : st.filter
        (fun e => decide (e.2.driveRootId = dId) || decide (e.1 = dId)) = [] := by
      apply List.filter_eq_nil_iff.mpr
      intro a ha
      simp
      refine ⟨hroot a ha, ?_⟩
      intro hh
      have hkey : dId ∈ storeKeys st := by
        rw [← hh]
        exact List.mem_map_of_mem Prod.fst ha
      exact (storeGet_eq_none_iff st dId).mp hnone hkey
    have hitems0 : unsyncItems st dId = [] := by simp [unsyncItems, hfil]
    refine Prod.ext ?_ ?_
    · show st.filter (fun e => decide (e.1 ∉ unsyncItems st dId)) = st
      apply List.filter_eq_self.mpr
      intro a _
      simp [hitems0]
    · exact recursively_unsync_snd_of_none _ _ _ hnone

/-- A store and filesystem unrelated to the id "zz". -/
def plainStore : Store :=
  [("k1", ⟨"a", false, "synced_files/a", 1, 1, some "x", "rootK", "a"⟩)]

/-- The single local file of `plainStore`. -/
def plainFS : LocalFS := [("synced_files/a", "x")]

/-- Witness for the amended C10: untracking "zz", which no record matches,
leaves the concrete store and filesystem untouched, and a repeated untrack
of the orphan-rooted id changes nothing further. -/
theorem untrack_idempotent_witness :
    (storeGet plainStore "zz" = none
      ∧ recursively_unsync plainStore plainFS "zz" = (plainStore, plainFS))
    ∧ recursively_unsync (recursively_unsync orphanStore [] "folderX").1
        (recursively_unsync orphanStore [] "folderX").2 "folderX"
      = recursively_unsync orphanStore [] "folderX" :=
  ⟨⟨by decide,
    (untrack_idempotent plainStore plainFS "zz").2 (by decide) (by decide)⟩,
   (untrack_idempotent orphanStore [] "folderX").1⟩
